import Mathlib

/-
Shallow embedding of the `private_data` zome (coordinator v1.6, plus the
v1.0 snapshot of `get_recovery_phrase`) of the flowsta-private-dna
repository, together with proofs of the specification claims.

The Holochain host is modelled as an explicit state:
  * `records` is the content-addressed entry store: an association list from
    action hash to the stored payload, its ordered list of update
    (successor) action hashes, and a deleted flag;
  * `links` is the link index for the single calling agent: an
    insertion-ordered list of edges, each carrying its link type, its target
    action hash and the hash of its create-link action;
  * `nextHash` is a fresh-hash counter (hashes are modelled as naturals).

Host calls are modelled as in Holochain: `get` returns `none` for a deleted
or absent record, `get_details` returns the record together with its ordered
`updates` metadata, `update_entry` appends a successor to the original
action's metadata, `delete_entry` marks the record deleted (and fails when
the hash is unknown), `delete_link` tombstones one edge by its create-link
hash.  Zome functions are translated one-to-one from
src/v1.6/zomes/private_data/coordinator/src/lib.rs; the unbounded
chain-walk loops take an explicit fuel argument.
-/

namespace Flowsta

/-- src/v1.9 integrity zome, struct UserProfile. -/
structure UserProfile where
  encrypted_email : String
  nonce : String
  salt : String
  tag : String
  username : Option String
  display_name : String
  created_at : Int
  updated_at : Int
deriving DecidableEq, Repr

/-- src/v1.9 integrity zome, struct RecoveryPhrase. -/
structure RecoveryPhrase where
  encrypted_mnemonic : String
  nonce : String
  salt : String
  tag : String
  verified : Bool
  created_at : Int
deriving DecidableEq, Repr

/-- src/v1.9 integrity zome, struct Session. -/
structure Session where
  user_agent : String
  ip_address : String
  device_info : String
  conductor_id : String
  created_at : Int
  last_active : Int
deriving DecidableEq, Repr

/-- src/v1.9 integrity zome, struct EmailPermission. -/
structure EmailPermission where
  service_name : String
  purpose : String
  granted : Bool
  granted_at : Option Int
  revoked_at : Option Int
  last_used_at : Option Int
  created_at : Int
  updated_at : Int
deriving DecidableEq, Repr

/-- src/v1.9 integrity zome, struct LoginActivity. -/
structure LoginActivity where
  timestamp : Int
  login_method : String
  ip_address : Option String
  user_agent : Option String
  session_id : String
  created_at : Int
deriving DecidableEq, Repr

/-- src/v1.9 integrity zome, struct DashboardActivity. -/
structure DashboardActivity where
  visit_timestamp : Int
  page_path : String
  duration_seconds : Option Int
  created_at : Int
deriving DecidableEq, Repr

/-- src/v1.9 integrity zome, struct OAuthActivity. -/
structure OAuthActivity where
  timestamp : Int
  app_id : String
  app_name : String
  event_type : String
  created_at : Int
deriving DecidableEq, Repr

/-- src/v1.9 integrity zome, struct PrivacySettings. -/
structure PrivacySettings where
  track_ip_address : Bool
  track_user_agent : Bool
  activity_log_retention_days : Int
  auto_anonymize_after_days : Option Int
  created_at : Int
  updated_at : Int
deriving DecidableEq, Repr

/-- src/v1.9 integrity zome, enum EntryTypes (the variants the claims use). -/
inductive EntryPayload where
  | userProfile (p : UserProfile)
  | recoveryPhrase (r : RecoveryPhrase)
  | session (s : Session)
  | emailPermission (e : EmailPermission)
  | loginActivity (a : LoginActivity)
  | dashboardActivity (a : DashboardActivity)
  | oauthActivity (a : OAuthActivity)
  | privacySettings (s : PrivacySettings)
deriving DecidableEq, Repr

/-- src/v1.9 integrity zome, enum LinkTypes. -/
inductive LinkType where
  | agentToProfile
  | agentToRecoveryPhrase
  | agentToSessions
  | agentToEmailPermissions
  | agentToLoginActivity
  | agentToDashboardActivity
  | agentToOAuthActivity
  | agentToPrivacySettings
deriving DecidableEq, Repr

/-- Action hashes of the content-addressed store, modelled as naturals. -/
abbrev Hash := Nat

/-- One stored record: its payload, the ordered list of update (successor)
action hashes registered against it, and its logical-deletion flag. -/
structure RecordEntry where
  payload : EntryPayload
  updates : List Hash
  deleted : Bool
deriving DecidableEq, Repr

/-- One edge of the link index for the calling agent. -/
structure LinkEdge where
  linkType : LinkType
  target : Hash
  createLinkHash : Hash
deriving DecidableEq, Repr

/-- The host state seen by the zome: entry store, link index, fresh-hash
counter. -/
structure State where
  records : List (Hash × RecordEntry)
  links : List LinkEdge
  nextHash : Hash
deriving DecidableEq, Repr

def emptyState : State := ⟨[], [], 0⟩

/-- Host call `get_links` filtered to one link type (the zome always links
from the calling agent's key). Insertion order is preserved. -/
def getLinks (s : State) (t : LinkType) : List LinkEdge :=
  s.links.filter (fun l => decide (l.linkType = t))

/-- Host call `create_entry`: stores an immutable record at a fresh action
hash. -/
def create_entry (s : State) (p : EntryPayload) : Hash × State :=
  (s.nextHash,
   { records := s.records ++ [(s.nextHash, ⟨p, [], false⟩)]
     links := s.links
     nextHash := s.nextHash + 1 })

/-- Host call `create_link`: appends an edge; the create-link action gets a
fresh hash. -/
def create_link (s : State) (t : LinkType) (target : Hash) : State :=
  { records := s.records
    links := s.links ++ [⟨t, target, s.nextHash⟩]
    nextHash := s.nextHash + 1 }

/-- Host call `delete_link`: tombstones the edge whose create-link action
has the given hash; `get_links` no longer returns it. -/
def delete_link (s : State) (clh : Hash) : State :=
  { records := s.records
    links := s.links.filter (fun l => decide (l.createLinkHash ≠ clh))
    nextHash := s.nextHash }

/-- Registering an update against `original`: append the new action hash to
its `updates` metadata. -/
def registerUpdate (rs : List (Hash × RecordEntry)) (original newHash : Hash) :
    List (Hash × RecordEntry) :=
  rs.map (fun pr =>
    (pr.1, if pr.1 = original
           then ⟨pr.2.payload, pr.2.updates ++ [newHash], pr.2.deleted⟩
           else pr.2))

/-- Host call `update_entry original payload`: stores the new payload at a
fresh action hash and registers it as a successor of `original`. -/
def update_entry (s : State) (original : Hash) (p : EntryPayload) : Hash × State :=
  (s.nextHash,
   { records := registerUpdate s.records original s.nextHash ++ [(s.nextHash, ⟨p, [], false⟩)]
     links := s.links
     nextHash := s.nextHash + 1 })

/-- The state change of a successful `delete_entry`: the record is marked
logically deleted; links and counter are untouched. -/
def markDeleted (s : State) (h : Hash) : State :=
  { records := s.records.map (fun pr =>
      (pr.1, if pr.1 = h then ⟨pr.2.payload, pr.2.updates, true⟩ else pr.2))
    links := s.links
    nextHash := s.nextHash }

/-- Host call `delete_entry`: marks the record logically deleted; fails when
the hash is unknown. -/
def delete_entry (s : State) (h : Hash) : Except String State :=
  match s.records.lookup h with
  | none => .error "record not found"
  | some _ => .ok (markDeleted s h)

/-- Host call `get`: returns the payload stored at an action hash, `none`
when absent or deleted. -/
def get (s : State) (h : Hash) : Option EntryPayload :=
  match s.records.lookup h with
  | none => none
  | some r => if r.deleted then none else some r.payload

/-- Host call `get_details`: the record plus its `updates` metadata (still
returned when the record is deleted). -/
def get_details (s : State) (h : Hash) : Option RecordEntry :=
  s.records.lookup h

/-- The chain-walk loop shared by `get_user_profile`,
`get_recovery_phrase` and `get_privacy_settings` in v1.6: fetch details of
the current hash, move to the last-listed update while one exists, return
the record once there are none.  The Rust loop is unbounded; `fuel` is the
embedding's termination bound (any fuel at least the chain length works). -/
def resolveChain (s : State) : Nat → Hash → Except String (Hash × EntryPayload)
  | 0, _ => .error "out of fuel"
  | fuel + 1, h =>
      match get_details s h with
      | none => .error "not found in chain"
      | some r =>
          match r.updates.getLast? with
          | some h' => resolveChain s fuel h'
          | none => .ok (h, r.payload)

/-- v1.6 coordinator, `store_user_profile`: create the entry, link it from
the agent; returns the created record's action hash. -/
def store_user_profile (s : State) (profile : UserProfile) : Hash × State :=
  let (profile_hash, s1) := create_entry s (.userProfile profile)
  (profile_hash, create_link s1 .agentToProfile profile_hash)

/-- v1.6 coordinator, `get_user_profile`: take the first AgentToProfile
link and recursively follow the entire update chain. -/
def get_user_profile (s : State) (fuel : Nat) :
    Except String (Option (Hash × EntryPayload)) :=
  match (getLinks s .agentToProfile).head? with
  | none => .ok none
  | some link => (resolveChain s fuel link.target).map some

/-- v1.6 coordinator, `update_user_profile`: resolve the current profile
record and `update_entry` it. -/
def update_user_profile (s : State) (profile : UserProfile) (fuel : Nat) :
    Except String (Hash × State) :=
  match get_user_profile s fuel with
  | .error e => .error e
  | .ok none => .error "No profile found to update"
  | .ok (some (h, _)) => .ok (update_entry s h (.userProfile profile))

/-- N sequential chain-policy updates: run `update_user_profile` once per
payload, left to right, stopping at the first error. -/
def applyUpdates (fuel : Nat) : State → List UserProfile → Except String State
  | s, [] => .ok s
  | s, p :: ps =>
      match update_user_profile s p fuel with
      | .error e => .error e
      | .ok x => applyUpdates fuel x.2 ps

/-- v1.6 coordinator, `store_recovery_phrase`. -/
def store_recovery_phrase (s : State) (recovery_phrase : RecoveryPhrase) : Hash × State :=
  let (rp_hash, s1) := create_entry s (.recoveryPhrase recovery_phrase)
  (rp_hash, create_link s1 .agentToRecoveryPhrase rp_hash)

/-- v1.6 coordinator, `get_recovery_phrase`: take the first
AgentToRecoveryPhrase link and recursively follow the entire update chain
(no timestamp comparison in this version). -/
def get_recovery_phrase (s : State) (fuel : Nat) :
    Except String (Option (Hash × EntryPayload)) :=
  match (getLinks s .agentToRecoveryPhrase).head? with
  | none => .ok none
  | some link => (resolveChain s fuel link.target).map some

/-- v1.0 coordinator, `get_recovery_phrase` (src/v1.0 lines 95-145): fetch
every linked recovery phrase and keep the one whose embedded `created_at`
is strictly greatest, scanning links in insertion order. -/
def v10_get_recovery_phrase (s : State) : Option (Hash × RecoveryPhrase) :=
  (getLinks s .agentToRecoveryPhrase).foldl
    (fun most_recent l =>
      match get s l.target with
      | some (.recoveryPhrase rp) =>
          match most_recent with
          | none => some (l.target, rp)
          | some best => if rp.created_at > best.2.created_at then some (l.target, rp) else most_recent
      | _ => most_recent)
    none

/-- v1.6 coordinator, `mark_recovery_phrase_verified`: resolve the current
phrase, set `verified` and rewrite `created_at` to the current time, delete
every AgentToRecoveryPhrase link, create a fresh entry (not `update_entry`)
and a fresh link to it. -/
def mark_recovery_phrase_verified (s : State) (now : Int) (fuel : Nat) :
    Except String (Hash × State) :=
  match get_recovery_phrase s fuel with
  | .error e => .error e
  | .ok none => .error "No recovery phrase found"
  | .ok (some (_, pl)) =>
      match pl with
      | .recoveryPhrase rp =>
          let rp' : RecoveryPhrase := { rp with verified := true, created_at := now }
          let links := getLinks s .agentToRecoveryPhrase
          let s1 := links.foldl (fun st l => delete_link st l.createLinkHash) s
          let (new_hash, s2) := create_entry s1 (.recoveryPhrase rp')
          .ok (new_hash, create_link s2 .agentToRecoveryPhrase new_hash)
      | _ => .error "Malformed recovery phrase"

/-- v1.6 coordinator, `store_session`. -/
def store_session (s : State) (session : Session) : Hash × State :=
  let (session_hash, s1) := create_entry s (.session session)
  (session_hash, create_link s1 .agentToSessions session_hash)

/-- v1.6 coordinator, `get_my_sessions`: fetch every AgentToSessions link
target, silently skipping unfetchable ones. -/
def get_my_sessions (s : State) : List (Hash × EntryPayload) :=
  (getLinks s .agentToSessions).filterMap
    (fun l => (get s l.target).map (fun p => (l.target, p)))

/-- v1.6 coordinator, `delete_session`: a bare `delete_entry` of the given
hash (no link removal). -/
def delete_session (s : State) (session_hash : Hash) : Except String State :=
  delete_entry s session_hash

/-- v1.6 coordinator, struct ExportedData. -/
structure ExportedData where
  user_profile : Option UserProfile
  recovery_phrase : Option RecoveryPhrase
  sessions : List Session
  email_permissions : List EmailPermission
  login_activities : List LoginActivity
  dashboard_activities : List DashboardActivity
  oauth_activities : List OAuthActivity
  privacy_settings : Option PrivacySettings
  export_timestamp : Int
  dna_version : String
deriving DecidableEq, Repr

/-- v1.6 coordinator, `grant_email_permission`: update the first linked
permission whose original entry matches the service name, else create a new
granted permission. -/
def grant_email_permission (s : State) (service_name purpose : String) (now : Int) :
    Hash × State :=
  match grantLoop s service_name now (getLinks s .agentToEmailPermissions) with
  | some res => res
  | none =>
      let permission : EmailPermission :=
        ⟨service_name, purpose, true, some now, none, none, now, now⟩
      let (permission_hash, s1) := create_entry s (.emailPermission permission)
      (permission_hash, create_link s1 .agentToEmailPermissions permission_hash)
where
  /-- The for-loop of `grant_email_permission` over existing links. -/
  grantLoop (s : State) (service_name : String) (now : Int) :
      List LinkEdge → Option (Hash × State)
    | [] => none
    | l :: rest =>
        match get s l.target with
        | some (.emailPermission p) =>
            if p.service_name = service_name then
              some (update_entry s l.target
                (.emailPermission { p with granted := true, granted_at := some now,
                                           revoked_at := none, updated_at := now }))
            else grantLoop s service_name now rest
        | _ => grantLoop s service_name now rest

/-- v1.6 coordinator, `revoke_email_permission`: scan the links in order;
on the first link whose original entry has the service name and
`granted = true`, update it to revoked; otherwise return an error with the
state untouched. -/
def revoke_email_permission (s : State) (service_name : String) (now : Int) :
    Except String Hash × State :=
  revokeLoop s service_name now (getLinks s .agentToEmailPermissions)
where
  /-- The for-loop of `revoke_email_permission` over existing links. -/
  revokeLoop (s : State) (service_name : String) (now : Int) :
      List LinkEdge → Except String Hash × State
    | [] => (.error "Permission not found or already revoked", s)
    | l :: rest =>
        match get s l.target with
        | some (.emailPermission p) =>
            if p.service_name = service_name ∧ p.granted then
              let (updated_hash, s') := update_entry s l.target
                (.emailPermission { p with granted := false, revoked_at := some now,
                                           updated_at := now })
              (.ok updated_hash, s')
            else revokeLoop s service_name now rest
        | _ => revokeLoop s service_name now rest

/-- v1.6 coordinator, `get_email_permissions`: for every link, fetch
details and follow one level of updates (the last-listed one) to report the
latest version of each permission. -/
def get_email_permissions (s : State) : List EmailPermission :=
  (getLinks s .agentToEmailPermissions).filterMap
    (fun l =>
      match get_details s l.target with
      | none => none
      | some r =>
          let latest :=
            match r.updates.getLast? with
            | some h' =>
                match get s h' with
                | some p => p
                | none => r.payload
            | none => r.payload
          match latest with
          | .emailPermission p => some p
          | _ => none)

/-- v1.6 coordinator, `check_email_permission`: true when some permission
reported by `get_email_permissions` has the service name and is granted. -/
def check_email_permission (s : State) (service_name : String) : Bool :=
  (get_email_permissions s).any (fun p => p.service_name = service_name ∧ p.granted)

/-- v1.6 coordinator, `create_default_privacy_settings`: error when a
settings link already exists, otherwise create the documented defaults
(track IP on, track user-agent on, 90-day retention, no auto-anonymize)
and link them. -/
def create_default_privacy_settings (s : State) (now : Int) :
    Except String (Hash × State) :=
  if (getLinks s .agentToPrivacySettings).isEmpty then
    let settings : PrivacySettings := ⟨true, true, 90, none, now, now⟩
    let (settings_hash, s1) := create_entry s (.privacySettings settings)
    .ok (settings_hash, create_link s1 .agentToPrivacySettings settings_hash)
  else .error "Privacy settings already exist"

/-- v1.6 coordinator, `get_privacy_settings`: first link, full chain walk. -/
def get_privacy_settings (s : State) (fuel : Nat) :
    Except String (Option (Hash × EntryPayload)) :=
  match (getLinks s .agentToPrivacySettings).head? with
  | none => .ok none
  | some link => (resolveChain s fuel link.target).map some

/-- v1.6 coordinator, `store_login_activity`. -/
def store_login_activity (s : State) (activity : LoginActivity) : Hash × State :=
  let (activity_hash, s1) := create_entry s (.loginActivity activity)
  (activity_hash, create_link s1 .agentToLoginActivity activity_hash)

/-- v1.6 coordinator, `store_dashboard_activity`. -/
def store_dashboard_activity (s : State) (activity : DashboardActivity) : Hash × State :=
  let (activity_hash, s1) := create_entry s (.dashboardActivity activity)
  (activity_hash, create_link s1 .agentToDashboardActivity activity_hash)

/-- v1.6 coordinator, `store_oauth_activity`. -/
def store_oauth_activity (s : State) (activity : OAuthActivity) : Hash × State :=
  let (activity_hash, s1) := create_entry s (.oauthActivity activity)
  (activity_hash, create_link s1 .agentToOAuthActivity activity_hash)

/-- v1.6 coordinator, `get_login_activity`: reverse the link list (newest
first), apply offset then limit, fetch and decode each target, silently
skipping unfetchable or undecodable ones. -/
def get_login_activity (s : State) (limit? offset? : Option Nat) : List LoginActivity :=
  let links := getLinks s .agentToLoginActivity
  let limit := limit?.getD 100
  let offset := offset?.getD 0
  ((links.reverse.drop offset).take limit).filterMap
    (fun l =>
      match get s l.target with
      | some (.loginActivity a) => some a
      | _ => none)

/-- The loop body of `delete_old_login_activity`: fetch and decode one link
target against the state so far; delete it (counting) when its `created_at`
is strictly below the cutoff. -/
def retentionStep (cutoff : Int) (acc : Except String (Nat × State)) (l : LinkEdge) :
    Except String (Nat × State) :=
  match acc with
  | .error e => .error e
  | .ok (n, st) =>
      match get st l.target with
      | some (.loginActivity a) =>
          if a.created_at < cutoff then
            match delete_entry st l.target with
            | .ok st' => .ok (n + 1, st')
            | .error e => .error e
          else .ok (n, st)
      | _ => .ok (n, st)

/-- v1.6 coordinator, `delete_old_login_activity`: for every link, run
`retentionStep` with cutoff `now - older_than_days` days. -/
def delete_old_login_activity (s : State) (now older_than_days : Int) :
    Except String (Nat × State) :=
  let cutoff := now - older_than_days * 24 * 60 * 60 * 1000000
  (getLinks s .agentToLoginActivity).foldl (retentionStep cutoff) (.ok (0, s))

/-- `import_data`, profile stage: "Import user profile if present". -/
def importProfileStage (s : State) (o : Option UserProfile) : State :=
  match o with
  | some profile => (store_user_profile s profile).2
  | none => s

/-- `import_data`, recovery-phrase stage: "Import recovery phrase if
present". -/
def importPhraseStage (s : State) (o : Option RecoveryPhrase) : State :=
  match o with
  | some rp => (store_recovery_phrase s rp).2
  | none => s

/-- `import_data`, sessions stage. -/
def importSessionsStage (s : State) (xs : List Session) : State :=
  xs.foldl (fun st session => (store_session st session).2) s

/-- `import_data`, email-permissions stage: each permission is recreated
and linked inline. -/
def importEmailStage (s : State) (xs : List EmailPermission) : State :=
  xs.foldl (fun st permission =>
    let (permission_hash, st1) := create_entry st (.emailPermission permission)
    create_link st1 .agentToEmailPermissions permission_hash) s

/-- `import_data`, login-activities stage. -/
def importLoginStage (s : State) (xs : List LoginActivity) : State :=
  xs.foldl (fun st a => (store_login_activity st a).2) s

/-- `import_data`, dashboard-activities stage. -/
def importDashboardStage (s : State) (xs : List DashboardActivity) : State :=
  xs.foldl (fun st a => (store_dashboard_activity st a).2) s

/-- `import_data`, OAuth-activities stage. -/
def importOAuthStage (s : State) (xs : List OAuthActivity) : State :=
  xs.foldl (fun st a => (store_oauth_activity st a).2) s

/-- The state after every pre-privacy stage of `import_data`, in source
order: profile, recovery phrase, sessions, email permissions, login,
dashboard and OAuth activities. -/
def importStages (s : State) (data : ExportedData) : State :=
  importOAuthStage
    (importDashboardStage
      (importLoginStage
        (importEmailStage
          (importSessionsStage
            (importPhraseStage
              (importProfileStage s data.user_profile)
              data.recovery_phrase)
            data.sessions)
          data.email_permissions)
        data.login_activities)
      data.dashboard_activities)
    data.oauth_activities

/-- v1.6 coordinator, `import_data`: replay each bundle field through the
ordinary store operations, in source order; any error stops the import at
that point (the `?` operator), leaving the writes already made.  When the
bundle has no privacy settings, default ones are synthesized. -/
def import_data (s : State) (data : ExportedData) (now : Int) :
    Except String Unit × State :=
  let s7 := importStages s data
  match data.privacy_settings with
  | none =>
      match create_default_privacy_settings s7 now with
      | .ok x => (.ok (), x.2)
      | .error e => (.error e, s7)
  | some settings =>
      let (settings_hash, s8) := create_entry s7 (.privacySettings settings)
      (.ok (), create_link s8 .agentToPrivacySettings settings_hash)

/-! ### Concrete sample data used by the witnesses and counterexamples -/

def sampleProfile (name : String) : UserProfile :=
  ⟨"enc-email", "nonce", "salt", "tag", none, name, 1, 1⟩

def samplePhrase (ts : Int) : RecoveryPhrase :=
  ⟨"enc-mnemonic", "nonce", "salt", "tag", false, ts⟩

def sampleSession : Session := ⟨"ua", "ip", "device", "conductor", 1, 1⟩

def sampleLogin (ts : Int) : LoginActivity :=
  ⟨ts, "password", none, none, "sid", ts⟩

/-- Microseconds per day, as in the Rust cutoff computation. -/
def microsPerDay : Int := 24 * 60 * 60 * 1000000

/-- A reference wall-clock time for the retention scenarios. -/
def sampleNow : Int := 10000000000000

/-- One stored recovery phrase (entry hash 0, link create hash 1). -/
def onePhraseState : State :=
  (store_recovery_phrase emptyState (samplePhrase 100)).2

/-- Two recovery phrases stored in sequence: the first-linked entry has the
older embedded timestamp 100, the second-linked one the newer 200. -/
def twoPhraseState : State :=
  (store_recovery_phrase (store_recovery_phrase emptyState (samplePhrase 100)).2
    (samplePhrase 200)).2

/-- Three login activities stored in sequence (insertion order = ages
5, 40 and 95 days before `sampleNow`). -/
def retentionState : State :=
  (store_login_activity (store_login_activity (store_login_activity emptyState
    (sampleLogin (sampleNow - 5 * microsPerDay))).2
    (sampleLogin (sampleNow - 40 * microsPerDay))).2
    (sampleLogin (sampleNow - 95 * microsPerDay))).2

/-- Three login activities with distinct timestamps, for pagination. -/
def paginationState : State :=
  (store_login_activity (store_login_activity (store_login_activity emptyState
    (sampleLogin 1)).2 (sampleLogin 2)).2 (sampleLogin 3)).2

/-- One stored session (entry hash 0, link create hash 1). -/
def oneSessionState : State := (store_session emptyState sampleSession).2

/-- A state that already has privacy settings (created with defaults). -/
def havePrivacyState : State :=
  match create_default_privacy_settings emptyState 7 with
  | .ok res => res.2
  | .error _ => emptyState

/-- A v1.5-style bundle: one session, no privacy settings field. -/
def sampleBundle : ExportedData :=
  ⟨none, none, [sampleSession], [], [], [], [], none, 0, "1.5"⟩

/-- The payload assignment of the three retention-scenario links. -/
def retentionF : LinkEdge → LoginActivity := fun l =>
  sampleLogin (sampleNow - (if l.target = 0 then 5 else if l.target = 2 then 40 else 95)
    * microsPerDay)

/-- One email permission granted for service "billing". -/
def grantedState : State :=
  (grant_email_permission emptyState "billing" "invoices" 10).2

/-- The "billing" permission granted and then revoked once: the latest
version of the permission has `granted = false`. -/
def revokedOnceState : State :=
  (revoke_email_permission grantedState "billing" 20).2

/-- Records well-formedness: every stored key and every registered update
hash is below the fresh-hash counter.  Every state reachable from
`emptyState` by the operations above satisfies it. -/
def WFrec (s : State) : Prop :=
  (s.records.all (fun pr =>
    decide (pr.1 < s.nextHash) && pr.2.updates.all (fun u => decide (u < s.nextHash)))) = true

instance : DecidablePred WFrec := fun s => by unfold WFrec; infer_instance

/-! ### Association-list and link-index helper lemmas -/

theorem lookup_append (l1 l2 : List (Hash × RecordEntry)) (k : Hash) :
    (l1 ++ l2).lookup k =
      match l1.lookup k with
      | some v => some v
      | none => l2.lookup k := by
  induction l1 with
  | nil => simp [List.lookup]
  | cons a tl ih =>
      by_cases hk : k = a.1
      · simp [List.lookup, hk]
      · simp only [List.cons_append, List.lookup]
        rw [show (k == a.1) = false from beq_eq_false_iff_ne.mpr hk]
        exact ih

theorem lookup_map_pair (g : Hash → RecordEntry → RecordEntry) :
    ∀ (l : List (Hash × RecordEntry)) (k : Hash),
      (l.map (fun pr => (pr.1, g pr.1 pr.2))).lookup k = (l.lookup k).map (g k) := by
  intro l
  induction l with
  | nil => intro k; simp [List.lookup]
  | cons a tl ih =>
      intro k
      by_cases hk : k = a.1
      · subst hk; simp [List.lookup]
      · simp only [List.map_cons, List.lookup]
        rw [show (k == a.1) = false from beq_eq_false_iff_ne.mpr hk]
        exact ih k

theorem lookup_eq_none_of_no_key (l : List (Hash × RecordEntry)) (k : Hash)
    (hk : ∀ pr ∈ l, pr.1 ≠ k) : l.lookup k = none := by
  induction l with
  | nil => simp [List.lookup]
  | cons a tl ih =>
      simp only [List.lookup]
      rw [show (k == a.1) = false from beq_eq_false_iff_ne.mpr
        (fun h => (hk a (List.mem_cons_self a tl)) h.symm)]
      exact ih (fun pr hpr => hk pr (List.mem_cons_of_mem a hpr))

theorem wfrec_iff (s : State) :
    WFrec s ↔ ∀ pr ∈ s.records, pr.1 < s.nextHash ∧ ∀ u ∈ pr.2.updates, u < s.nextHash := by
  unfold WFrec
  simp [List.all_eq_true, Bool.and_eq_true, decide_eq_true_eq]

theorem getLinks_links_eq {s s' : State} (t : LinkType) (h : s'.links = s.links) :
    getLinks s' t = getLinks s t := by
  unfold getLinks; rw [h]

theorem getLinks_create_entry (s : State) (p : EntryPayload) (t : LinkType) :
    getLinks (create_entry s p).2 t = getLinks s t := rfl

theorem getLinks_update_entry (s : State) (h : Hash) (p : EntryPayload) (t : LinkType) :
    getLinks (update_entry s h p).2 t = getLinks s t := rfl

theorem getLinks_markDeleted (s : State) (h : Hash) (t : LinkType) :
    getLinks (markDeleted s h) t = getLinks s t := rfl

theorem getLinks_create_link_eq (s : State) (t : LinkType) (h : Hash) :
    getLinks (create_link s t h) t = getLinks s t ++ [⟨t, h, s.nextHash⟩] := by
  unfold getLinks create_link
  simp

theorem getLinks_create_link_ne (s : State) (t t' : LinkType) (h : Hash) (hne : t ≠ t') :
    getLinks (create_link s t h) t' = getLinks s t' := by
  unfold getLinks create_link
  simp [List.filter_append, hne]

/-! ### Well-formedness preservation -/

theorem WFrec_create_entry {s : State} (p : EntryPayload) (hw : WFrec s) :
    WFrec (create_entry s p).2 := by
  rw [wfrec_iff] at hw ⊢
  intro pr hpr
  simp only [create_entry, List.mem_append, List.mem_singleton] at hpr
  rcases hpr with hpr | hpr
  · rcases hw pr hpr with ⟨h1, h2⟩
    exact ⟨Nat.lt_succ_of_lt h1, fun u hu => Nat.lt_succ_of_lt (h2 u hu)⟩
  · subst hpr
    exact ⟨Nat.lt_succ_self _, by simp⟩

theorem WFrec_create_link {s : State} (t : LinkType) (h : Hash) (hw : WFrec s) :
    WFrec (create_link s t h) := by
  rw [wfrec_iff] at hw ⊢
  intro pr hpr
  rcases hw pr hpr with ⟨h1, h2⟩
  exact ⟨Nat.lt_succ_of_lt h1, fun u hu => Nat.lt_succ_of_lt (h2 u hu)⟩

theorem WFrec_update_entry {s : State} (orig : Hash) (p : EntryPayload) (hw : WFrec s) :
    WFrec (update_entry s orig p).2 := by
  rw [wfrec_iff] at hw ⊢
  intro pr hpr
  simp only [update_entry, registerUpdate, List.mem_append, List.mem_map,
    List.mem_singleton] at hpr
  rcases hpr with ⟨q, hq, hpr⟩ | hpr
  · rcases hw q hq with ⟨h1, h2⟩
    subst hpr
    constructor
    · exact Nat.lt_succ_of_lt h1
    · intro u hu
      by_cases ho : q.1 = orig
      · simp only [ho, if_pos rfl] at hu
        rcases List.mem_append.mp hu with hu | hu
        · exact Nat.lt_succ_of_lt (h2 u hu)
        · rw [List.mem_singleton.mp hu]; exact Nat.lt_succ_self _
      · simp only [if_neg ho] at hu
        exact Nat.lt_succ_of_lt (h2 u hu)
  · subst hpr
    exact ⟨Nat.lt_succ_self _, by simp⟩

theorem WFrec_delete_link {s : State} (clh : Hash) (hw : WFrec s) :
    WFrec (delete_link s clh) := by
  rw [wfrec_iff] at hw ⊢
  exact hw

theorem WFrec_markDeleted {s : State} (h : Hash) (hw : WFrec s) :
    WFrec (markDeleted s h) := by
  rw [wfrec_iff] at hw ⊢
  intro pr hpr
  simp only [markDeleted, List.mem_map] at hpr
  rcases hpr with ⟨q, hq, hpr⟩
  rcases hw q hq with ⟨h1, h2⟩
  subst hpr
  refine ⟨h1, fun u hu => ?_⟩
  by_cases hd : q.1 = h
  · simp only [hd, if_pos rfl] at hu
    exact h2 u hu
  · simp only [if_neg hd] at hu
    exact h2 u hu

/-! ### Chain-resolver lemmas -/

theorem resolveChain_notfound {s : State} {f : Nat} {h : Hash}
    (hd : get_details s h = none) :
    resolveChain s (f + 1) h = .error "not found in chain" := by
  simp [resolveChain, hd]

theorem resolveChain_cont {s : State} {f : Nat} {h h' : Hash} {r : RecordEntry}
    (hd : get_details s h = some r) (hl : r.updates.getLast? = some h') :
    resolveChain s (f + 1) h = resolveChain s f h' := by
  simp [resolveChain, hd, hl]

theorem resolveChain_last {s : State} {f : Nat} {h : Hash} {r : RecordEntry}
    (hd : get_details s h = some r) (hl : r.updates.getLast? = none) :
    resolveChain s (f + 1) h = .ok (h, r.payload) := by
  simp [resolveChain, hd, hl]

theorem resolveChain_mono {s : State} :
    ∀ {f f' : Nat} {h : Hash} {x : Hash × EntryPayload},
      resolveChain s f h = .ok x → f ≤ f' → resolveChain s f' h = .ok x := by
  intro f
  induction f with
  | zero => intro f' h x hok; simp [resolveChain] at hok
  | succ f ih =>
      intro f' h x hok hle
      obtain ⟨f'', rfl⟩ : ∃ f'', f' = f'' + 1 := ⟨f' - 1, by omega⟩
      cases hd : get_details s h with
      | none => rw [resolveChain_notfound hd] at hok; exact Except.noConfusion hok
      | some r =>
          cases hl : r.updates.getLast? with
          | some h' =>
              rw [resolveChain_cont hd hl] at hok
              rw [resolveChain_cont hd hl]
              exact ih hok (by omega)
          | none =>
              rw [resolveChain_last hd hl] at hok
              rw [resolveChain_last hd hl]
              exact hok

theorem resolveChain_ok_end {s : State} :
    ∀ {f : Nat} {h hc : Hash} {q : EntryPayload},
      resolveChain s f h = .ok (hc, q) →
      ∃ r, s.records.lookup hc = some r ∧ r.updates.getLast? = none ∧ r.payload = q := by
  intro f
  induction f with
  | zero => intro h hc q hok; simp [resolveChain] at hok
  | succ f ih =>
      intro h hc q hok
      cases hd : get_details s h with
      | none => rw [resolveChain_notfound hd] at hok; exact Except.noConfusion hok
      | some r =>
          cases hl : r.updates.getLast? with
          | some h' => rw [resolveChain_cont hd hl] at hok; exact ih hok
          | none =>
              rw [resolveChain_last hd hl] at hok
              have hok' : h = hc ∧ r.payload = q := by
                simpa using hok
              exact ⟨r, hok'.1 ▸ hd, hl, hok'.2⟩

theorem lookup_some_mem {l : List (Hash × RecordEntry)} {k : Hash} {v : RecordEntry}
    (hk : l.lookup k = some v) : (k, v) ∈ l := by
  induction l with
  | nil => simp [List.lookup] at hk
  | cons a tl ih =>
      simp only [List.lookup] at hk
      by_cases he : k = a.1
      · rw [show (k == a.1) = true from beq_iff_eq.mpr he] at hk
        simp only [Option.some.injEq] at hk
        subst he; subst hk
        exact List.mem_cons_self _ _
      · rw [show (k == a.1) = false from beq_eq_false_iff_ne.mpr he] at hk
        exact List.mem_cons_of_mem a (ih hk)

/-- Appending a fresh successor to the head of a chain extends every
resolution to the new record. -/
theorem resolveChain_extend {s : State} {hc : Hash} {q p : EntryPayload}
    (hw : WFrec s) :
    ∀ {f : Nat} {h : Hash},
      resolveChain s f h = .ok (hc, q) →
      resolveChain (update_entry s hc p).2 (f + 1) h = .ok (s.nextHash, p) := by
  have hwf := (wfrec_iff s).mp hw
  have hlookup :
      ∀ k, (registerUpdate s.records hc s.nextHash).lookup k =
        (s.records.lookup k).map
          (fun r => if k = hc
                    then ⟨r.payload, r.updates ++ [s.nextHash], r.deleted⟩
                    else r) := fun k =>
    lookup_map_pair
      (fun k r => if k = hc then ⟨r.payload, r.updates ++ [s.nextHash], r.deleted⟩ else r)
      s.records k
  have hMem : ∀ k r, s.records.lookup k = some r → k < s.nextHash := by
    intro k r hk
    exact (hwf _ (lookup_some_mem hk)).1
  have hupdLookup : ∀ k, (update_entry s hc p).2.records.lookup k =
      match (registerUpdate s.records hc s.nextHash).lookup k with
      | some v => some v
      | none => ([(s.nextHash, (⟨p, [], false⟩ : RecordEntry))]).lookup k := by
    intro k
    exact lookup_append _ _ k
  -- details of an unchanged (non-head) record
  have hdet_ne : ∀ k r, k ≠ hc → s.records.lookup k = some r →
      get_details (update_entry s hc p).2 k = some r := by
    intro k r hk hkr
    show (update_entry s hc p).2.records.lookup k = some r
    rw [hupdLookup k, hlookup k, hkr]
    simp [hk]
  -- details of the head record: the fresh hash is appended to its updates
  have hdet_hc : ∀ r, s.records.lookup hc = some r →
      get_details (update_entry s hc p).2 hc =
        some ⟨r.payload, r.updates ++ [s.nextHash], r.deleted⟩ := by
    intro r hkr
    show (update_entry s hc p).2.records.lookup hc = some _
    rw [hupdLookup hc, hlookup hc, hkr]
    simp
  -- details of the fresh record
  have hdet_new : get_details (update_entry s hc p).2 s.nextHash =
      some ⟨p, [], false⟩ := by
    show (update_entry s hc p).2.records.lookup s.nextHash = some _
    rw [hupdLookup s.nextHash, hlookup s.nextHash]
    cases hl : s.records.lookup s.nextHash with
    | none => simp [List.lookup]
    | some r => exact absurd (hMem _ _ hl) (lt_irrefl _)
  intro f
  induction f with
  | zero => intro h hok; simp [resolveChain] at hok
  | succ f ih =>
      intro h hok0
      obtain ⟨rend, hrend, hendlast, hendpay⟩ := resolveChain_ok_end hok0
      have hok := hok0
      cases hd : get_details s h with
      | none => rw [resolveChain_notfound hd] at hok; exact Except.noConfusion hok
      | some r =>
          cases hl : r.updates.getLast? with
          | some h' =>
              rw [resolveChain_cont hd hl] at hok
              have hne : h ≠ hc := by
                intro he
                subst he
                have hrr : r = rend := by
                  have hd' : s.records.lookup h = some r := hd
                  rw [hd'] at hrend
                  exact Option.some.inj hrend
                rw [hrr, hendlast] at hl
                exact Option.noConfusion hl
              have hstep : get_details (update_entry s hc p).2 h = some r :=
                hdet_ne h r hne hd
              rw [resolveChain_cont hstep hl]
              exact ih hok
          | none =>
              rw [resolveChain_last hd hl] at hok
              have hpair : h = hc ∧ r.payload = q := by
                simpa using hok
              rcases hpair with ⟨rfl, _⟩
              have hd' : s.records.lookup h = some r := hd
              have hstep1 : get_details (update_entry s h p).2 h =
                  some ⟨r.payload, r.updates ++ [s.nextHash], r.deleted⟩ :=
                hdet_hc r hd'
              rw [resolveChain_cont hstep1
                (show (r.updates ++ [s.nextHash]).getLast? = some s.nextHash from
                  List.getLast?_concat _)]
              rw [resolveChain_last hdet_new rfl]

/-! ### C1: sequential chain updates of the user profile -/

theorem get_details_create_entry_fresh {s : State} (p : EntryPayload) (hw : WFrec s) :
    get_details (create_entry s p).2 s.nextHash = some ⟨p, [], false⟩ := by
  have hwf := (wfrec_iff s).mp hw
  show ((create_entry s p).2.records).lookup s.nextHash = some _
  have : (create_entry s p).2.records = s.records ++ [(s.nextHash, ⟨p, [], false⟩)] := rfl
  rw [this, lookup_append]
  rw [lookup_eq_none_of_no_key s.records s.nextHash
    (fun pr hpr => Nat.ne_of_lt (hwf pr hpr).1)]
  simp [List.lookup]

theorem get_details_create_link (s : State) (t : LinkType) (h k : Hash) :
    get_details (create_link s t h) k = get_details s k := rfl

theorem get_user_profile_single {s : State} {l : LinkEdge} {fuel : Nat}
    (hl : getLinks s .agentToProfile = [l]) :
    get_user_profile s fuel = (resolveChain s fuel l.target).map some := by
  unfold get_user_profile
  rw [hl]
  rfl

theorem update_user_profile_ok {s : State} {l : LinkEdge} {hc : Hash}
    {q : EntryPayload} {fuel : Nat} (p : UserProfile)
    (hl : getLinks s .agentToProfile = [l])
    (hres : resolveChain s fuel l.target = .ok (hc, q)) :
    update_user_profile s p fuel = .ok (update_entry s hc (.userProfile p)) := by
  unfold update_user_profile
  rw [get_user_profile_single hl, hres]
  rfl

/-- The inductive core of C1: with a single profile edge whose chain
resolves to the head `hc`, each further update moves the resolved head to
the freshly written payload. -/
theorem applyUpdates_resolve :
    ∀ (ps : List UserProfile) (s : State) (h0 hc clh : Hash) (q : UserProfile)
      (n fuel : Nat),
      WFrec s →
      getLinks s .agentToProfile = [⟨.agentToProfile, h0, clh⟩] →
      (∀ f, n ≤ f → resolveChain s f h0 = .ok (hc, .userProfile q)) →
      n + ps.length ≤ fuel →
      ∃ s' hc',
        applyUpdates fuel s ps = .ok s' ∧ WFrec s' ∧
        getLinks s' .agentToProfile = [⟨.agentToProfile, h0, clh⟩] ∧
        (∀ f, n + ps.length ≤ f →
          resolveChain s' f h0 = .ok (hc', .userProfile (ps.getLastD q))) := by
  intro ps
  induction ps with
  | nil =>
      intro s h0 hc clh q n fuel hw hl hres _
      exact ⟨s, hc, rfl, hw, hl, by simpa using hres⟩
  | cons p ps ih =>
      intro s h0 hc clh q n fuel hw hl hres hfuel
      have hresf : resolveChain s fuel h0 = .ok (hc, .userProfile q) :=
        hres fuel (by simp at hfuel; omega)
      have hupd : update_user_profile s p fuel =
          .ok (update_entry s hc (.userProfile p)) :=
        update_user_profile_ok p hl hresf
      have happ : applyUpdates fuel s (p :: ps) =
          applyUpdates fuel (update_entry s hc (.userProfile p)).2 ps := by
        show (match update_user_profile s p fuel with
              | Except.error e => (Except.error e : Except String State)
              | Except.ok x => applyUpdates fuel x.2 ps) = _
        rw [hupd]
      set s1 := (update_entry s hc (.userProfile p)).2 with hs1
      have hw1 : WFrec s1 := WFrec_update_entry hc (.userProfile p) hw
      have hl1 : getLinks s1 .agentToProfile = [⟨.agentToProfile, h0, clh⟩] := by
        rw [hs1, getLinks_update_entry]; exact hl
      have hres1 : ∀ f, n + 1 ≤ f →
          resolveChain s1 f h0 = .ok (s.nextHash, .userProfile p) := by
        intro f hf
        obtain ⟨f', rfl⟩ : ∃ f', f = f' + 1 := ⟨f - 1, by omega⟩
        exact resolveChain_extend hw (hres f' (by omega))
      obtain ⟨s', hc', happ', hw', hl', hres'⟩ :=
        ih s1 h0 s.nextHash clh p (n + 1) fuel hw1 hl1 hres1 (by simp at hfuel ⊢; omega)
      refine ⟨s', hc', by rw [happ]; exact happ', hw', hl', ?_⟩
      intro f hf
      rw [List.getLastD_cons]
      exact hres' f (by simp at hf ⊢; omega)

/-- C1.  For every well-formed state with no profile edge yet: after
`store_user_profile` and N sequential `update_user_profile` calls, the
chain walk of `get_user_profile` returns exactly the Nth-written payload. -/
theorem user_profile_chain_returns_last_write
    (s0 : State) (p0 : UserProfile) (ps : List UserProfile) (fuel : Nat)
    (hw : WFrec s0) (hno : getLinks s0 .agentToProfile = [])
    (hfuel : ps.length + 1 ≤ fuel) :
    ∃ s' hN,
      applyUpdates fuel (store_user_profile s0 p0).2 ps = .ok s' ∧
      get_user_profile s' fuel = .ok (some (hN, .userProfile (ps.getLastD p0))) := by
  set h0 := s0.nextHash with hh0
  set sA := (create_entry s0 (.userProfile p0)).2 with hsA
  have hs1 : (store_user_profile s0 p0).2 = create_link sA .agentToProfile h0 := rfl
  set s1 := create_link sA .agentToProfile h0 with hs1'
  have hwA : WFrec sA := WFrec_create_entry _ hw
  have hw1 : WFrec s1 := WFrec_create_link _ _ hwA
  have hl1 : getLinks s1 .agentToProfile =
      [⟨.agentToProfile, h0, sA.nextHash⟩] := by
    rw [hs1', getLinks_create_link_eq]
    rw [show getLinks sA .agentToProfile = getLinks s0 .agentToProfile from rfl, hno]
    rfl
  have hdet1 : get_details s1 h0 = some ⟨.userProfile p0, [], false⟩ := by
    rw [hs1', get_details_create_link]
    exact get_details_create_entry_fresh _ hw
  have hres1 : ∀ f, 1 ≤ f → resolveChain s1 f h0 = .ok (h0, .userProfile p0) := by
    intro f hf
    obtain ⟨f', rfl⟩ : ∃ f', f = f' + 1 := ⟨f - 1, by omega⟩
    exact resolveChain_last hdet1 rfl
  obtain ⟨s', hc', happ, _, hl', hres'⟩ :=
    applyUpdates_resolve ps s1 h0 h0 sA.nextHash p0 1 fuel hw1 hl1 hres1 (by omega)
  refine ⟨s', hc', by rw [hs1]; exact happ, ?_⟩
  rw [get_user_profile_single hl', hres' fuel (by omega)]
  rfl

/-- Witness for C1: three writes (one store, two updates) from the empty
state; the resolved head is the last-written payload. -/
theorem user_profile_chain_returns_last_write_witness :
    ∃ s' hN,
      applyUpdates 3 (store_user_profile emptyState (sampleProfile "a")).2
        [sampleProfile "b", sampleProfile "c"] = .ok s' ∧
      get_user_profile s' 3 =
        .ok (some (hN, .userProfile ([sampleProfile "b",
          sampleProfile "c"].getLastD (sampleProfile "a")))) :=
  user_profile_chain_returns_last_write emptyState (sampleProfile "a")
    [sampleProfile "b", sampleProfile "c"] 3 (by decide) rfl (by decide)

/-! ### C2: duplicate-edge resolution of the recovery phrase -/

/-- C2 fails on the v1.6 code: with two recovery-phrase edges whose first
target carries the older embedded timestamp (100) and whose second target
carries the newer one (200), v1.6 `get_recovery_phrase` returns the
first-linked stale entry, while the v1.0 code (and the v1.6 comment that
still claims "timestamp sorting in get_recovery_phrase") picks the entry
with the greatest `created_at`. -/
theorem recovery_phrase_resolution_ignores_timestamp :
    get_recovery_phrase twoPhraseState 5 =
      .ok (some (0, .recoveryPhrase (samplePhrase 100))) ∧
    (samplePhrase 100).created_at = 100 ∧
    getLinks twoPhraseState .agentToRecoveryPhrase =
      [⟨.agentToRecoveryPhrase, 0, 1⟩, ⟨.agentToRecoveryPhrase, 2, 3⟩] ∧
    get twoPhraseState 2 = some (.recoveryPhrase (samplePhrase 200)) ∧
    (samplePhrase 200).created_at = 200 ∧
    v10_get_recovery_phrase twoPhraseState = some (2, samplePhrase 200) :=
  ⟨rfl, rfl, rfl, rfl, rfl, rfl⟩

/-! ### C8: delete_session -/

theorem get_markDeleted (s : State) (h k : Hash) :
    get (markDeleted s h) k = if k = h then none else get s k := by
  unfold get markDeleted
  have : (s.records.map (fun pr =>
      (pr.1, if pr.1 = h then (⟨pr.2.payload, pr.2.updates, true⟩ : RecordEntry)
             else pr.2))).lookup k =
      (s.records.lookup k).map
        (fun r => if k = h then ⟨r.payload, r.updates, true⟩ else r) :=
    lookup_map_pair (fun k r => if k = h then ⟨r.payload, r.updates, true⟩ else r) s.records k
  rw [this]
  cases hr : s.records.lookup k with
  | none => simp
  | some r =>
      by_cases hk : k = h
      · simp [hk]
      · simp [hk]

theorem sessions_filterMap_markDeleted (s : State) (h : Hash) :
    ∀ ls : List LinkEdge,
      ls.filterMap (fun l => (get (markDeleted s h) l.target).map (fun p => (l.target, p))) =
      (ls.filterMap (fun l => (get s l.target).map (fun p => (l.target, p)))).filter
        (fun x => decide (x.1 ≠ h)) := by
  intro ls
  induction ls with
  | nil => rfl
  | cons l tl ih =>
      simp only [List.filterMap_cons]
      rw [get_markDeleted]
      by_cases hk : l.target = h
      · simp only [hk, if_pos rfl]
        cases hg : get s h with
        | none => simpa [hk, hg] using ih
        | some p => simp [hk, hg, ih]
      · simp only [if_neg hk]
        cases hg : get s l.target with
        | none => simpa [hg] using ih
        | some p => simp [hg, ih, hk]

/-- C8 (amended): `delete_session` marks the entry deleted, so the session
disappears from `get_my_sessions`, but the link index is left untouched —
the AgentToSessions edge is not removed. -/
theorem delete_session_marks_entry_only (s : State) (h : Hash) (r : RecordEntry)
    (hr : s.records.lookup h = some r) :
    delete_session s h = .ok (markDeleted s h) ∧
    (markDeleted s h).links = s.links ∧
    get_my_sessions (markDeleted s h) =
      (get_my_sessions s).filter (fun x => decide (x.1 ≠ h)) := by
  refine ⟨?_, rfl, ?_⟩
  · unfold delete_session delete_entry
    rw [hr]
  · unfold get_my_sessions
    rw [getLinks_markDeleted]
    exact sessions_filterMap_markDeleted s h _

/-- Witness for the amended C8 theorem at the concrete one-session state. -/
theorem delete_session_marks_entry_only_witness :
    delete_session oneSessionState 0 = .ok (markDeleted oneSessionState 0) ∧
    (markDeleted oneSessionState 0).links = oneSessionState.links ∧
    get_my_sessions (markDeleted oneSessionState 0) =
      (get_my_sessions oneSessionState).filter (fun x => decide (x.1 ≠ 0)) :=
  delete_session_marks_entry_only oneSessionState 0
    ⟨.session sampleSession, [], false⟩ rfl

/-- Counterexample to C8 as stated: after `delete_session` on the stored
session, `get_my_sessions` no longer returns it, yet the AgentToSessions
edge pointing to it is still present in the link index. -/
theorem delete_session_leaves_edge_counterexample :
    delete_session oneSessionState 0 = .ok (markDeleted oneSessionState 0) ∧
    get_my_sessions (markDeleted oneSessionState 0) = [] ∧
    getLinks (markDeleted oneSessionState 0) .agentToSessions =
      [⟨.agentToSessions, 0, 1⟩] :=
  ⟨rfl, rfl, rfl⟩

/-! ### C9: absence is None, never an error -/

/-- C9: with no edge for the respective singleton kind, each singleton read
returns `Ok(None)`. -/
theorem singleton_reads_return_none_when_absent (s : State) (fuel : Nat) :
    (getLinks s .agentToProfile = [] → get_user_profile s fuel = .ok none) ∧
    (getLinks s .agentToRecoveryPhrase = [] → get_recovery_phrase s fuel = .ok none) ∧
    (getLinks s .agentToPrivacySettings = [] → get_privacy_settings s fuel = .ok none) := by
  refine ⟨?_, ?_, ?_⟩
  · intro h; unfold get_user_profile; rw [h]; rfl
  · intro h; unfold get_recovery_phrase; rw [h]; rfl
  · intro h; unfold get_privacy_settings; rw [h]; rfl

/-- Witness for C9 at the empty state. -/
theorem singleton_reads_return_none_when_absent_witness :
    get_user_profile emptyState 0 = .ok none ∧
    get_recovery_phrase emptyState 0 = .ok none ∧
    get_privacy_settings emptyState 0 = .ok none :=
  ⟨(singleton_reads_return_none_when_absent emptyState 0).1 rfl,
   (singleton_reads_return_none_when_absent emptyState 0).2.1 rfl,
   (singleton_reads_return_none_when_absent emptyState 0).2.2 rfl⟩

/-! ### C10: revoking an absent permission -/

/-- C10 fails as stated: after grant followed by one revoke, no permission
is currently granted (the code's own `check_email_permission` reports
false), yet a second `revoke_email_permission` still succeeds — it checks
the original entry at the link target, which still has `granted = true` —
and it writes another update instead of erroring with no state change. -/
theorem revoke_after_revoke_still_succeeds :
    check_email_permission revokedOnceState "billing" = false ∧
    (revoke_email_permission revokedOnceState "billing" 30).1 = .ok 3 ∧
    (revoke_email_permission revokedOnceState "billing" 30).2 ≠ revokedOnceState :=
  ⟨rfl, rfl, by decide⟩

/-- C10 (amended): the absence check is against the original linked entry.
When no link target's original entry has the service name with
`granted = true`, revoke returns the error and the state is unchanged. -/
theorem revoke_errors_when_no_matching_original (s : State) (service : String) (now : Int)
    (habs : ∀ l ∈ getLinks s .agentToEmailPermissions, ∀ p : EmailPermission,
      get s l.target = some (.emailPermission p) →
      ¬(p.service_name = service ∧ p.granted = true)) :
    revoke_email_permission s service now =
      (.error "Permission not found or already revoked", s) := by
  unfold revoke_email_permission
  have hloop : ∀ ls : List LinkEdge,
      (∀ l ∈ ls, ∀ p : EmailPermission,
        get s l.target = some (.emailPermission p) →
        ¬(p.service_name = service ∧ p.granted = true)) →
      revoke_email_permission.revokeLoop s service now ls =
        (.error "Permission not found or already revoked", s) := by
    intro ls
    induction ls with
    | nil => intro _; rfl
    | cons l tl ih =>
        intro hall
        unfold revoke_email_permission.revokeLoop
        cases hg : get s l.target with
        | none => exact ih (fun l' hl' => hall l' (List.mem_cons_of_mem l hl'))
        | some p =>
            cases p with
            | emailPermission q =>
                have hq := hall l (List.mem_cons_self l tl) q hg
                have htl := ih (fun l' hl' => hall l' (List.mem_cons_of_mem l hl'))
                simpa [hq] using htl
            | userProfile q => exact ih (fun l' hl' => hall l' (List.mem_cons_of_mem l hl'))
            | recoveryPhrase q => exact ih (fun l' hl' => hall l' (List.mem_cons_of_mem l hl'))
            | session q => exact ih (fun l' hl' => hall l' (List.mem_cons_of_mem l hl'))
            | loginActivity q => exact ih (fun l' hl' => hall l' (List.mem_cons_of_mem l hl'))
            | dashboardActivity q => exact ih (fun l' hl' => hall l' (List.mem_cons_of_mem l hl'))
            | oauthActivity q => exact ih (fun l' hl' => hall l' (List.mem_cons_of_mem l hl'))
            | privacySettings q => exact ih (fun l' hl' => hall l' (List.mem_cons_of_mem l hl'))
  exact hloop _ habs

/-- Witness for the amended C10: revoking a service with no matching
original permission entry errors and leaves the state unchanged. -/
theorem revoke_errors_when_no_matching_original_witness :
    revoke_email_permission grantedState "analytics" 40 =
      (.error "Permission not found or already revoked", grantedState) := by
  apply revoke_errors_when_no_matching_original
  intro l hl p hp
  have hlinks : getLinks grantedState .agentToEmailPermissions =
      [⟨.agentToEmailPermissions, 0, 1⟩] := rfl
  rw [hlinks] at hl
  rw [List.mem_singleton.mp hl] at hp
  have hp0 : get grantedState (0 : Hash) =
      some (.emailPermission ⟨"billing", "invoices", true, some 10, none, none, 10, 10⟩) := rfl
  rw [hp0] at hp
  have : (⟨"billing", "invoices", true, some 10, none, none, 10, 10⟩ : EmailPermission) = p := by
    have := Option.some.inj hp
    exact EntryPayload.emailPermission.inj this
  rw [← this]
  decide

/-! ### C6: pagination of the login-activity list -/

theorem filterMap_decode_eq_map {s : State} (f : LinkEdge → LoginActivity) :
    ∀ seg : List LinkEdge,
      (∀ l ∈ seg, get s l.target = some (.loginActivity (f l))) →
      seg.filterMap (fun l =>
        match get s l.target with
        | some (.loginActivity a) => some a
        | _ => none) = seg.map f := by
  intro seg
  induction seg with
  | nil => intro _; rfl
  | cons l tl ih =>
      intro hall
      have hl := hall l (List.mem_cons_self l tl)
      simp only [List.filterMap_cons, List.map_cons, hl]
      rw [ih (fun l' hl' => hall l' (List.mem_cons_of_mem l hl'))]

/-- C6: with every link target fetchable and decodable, `get_login_activity`
with limit L and offset O returns the (O, L) window of the reversed
(newest-first) link sequence; in particular it has
min L (K - O) elements (truncated subtraction, i.e. max 0 (min L (K-O))). -/
theorem get_login_activity_pagination (s : State) (L O : Nat) (f : LinkEdge → LoginActivity)
    (hf : ∀ l ∈ getLinks s .agentToLoginActivity, get s l.target = some (.loginActivity (f l))) :
    get_login_activity s (some L) (some O) =
      (((getLinks s .agentToLoginActivity).reverse.map f).drop O).take L ∧
    (get_login_activity s (some L) (some O)).length =
      min L ((getLinks s .agentToLoginActivity).length - O) := by
  have hseg : ∀ l ∈ (((getLinks s .agentToLoginActivity).reverse.drop O).take L),
      get s l.target = some (.loginActivity (f l)) := by
    intro l hl
    exact hf l (List.mem_reverse.mp (List.mem_of_mem_drop (List.mem_of_mem_take hl)))
  have h1 : get_login_activity s (some L) (some O) =
      ((((getLinks s .agentToLoginActivity).reverse.drop O).take L)).map f :=
    filterMap_decode_eq_map f _ hseg
  constructor
  · rw [h1, List.map_take, List.map_drop]
  · rw [h1]
    simp [List.length_take, List.length_drop, List.length_reverse]

/-- Witness for C6 at three stored activities, limit 2, offset 1. -/
theorem get_login_activity_pagination_witness :
    get_login_activity paginationState (some 2) (some 1) =
      (((getLinks paginationState .agentToLoginActivity).reverse.map
        (fun l => sampleLogin (if l.target = 0 then 1 else
          if l.target = 2 then 2 else 3))).drop 1).take 2 ∧
    (get_login_activity paginationState (some 2) (some 1)).length =
      min 2 ((getLinks paginationState .agentToLoginActivity).length - 1) :=
  get_login_activity_pagination paginationState 2 1
    (fun l => sampleLogin (if l.target = 0 then 1 else if l.target = 2 then 2 else 3))
    (by decide)

/-! ### C7: age-based retention sweep of login activity -/

theorem get_some_lookup {st : State} {k : Hash} {p : EntryPayload}
    (hg : get st k = some p) :
    ∃ r, st.records.lookup k = some r ∧ r.deleted = false ∧ r.payload = p := by
  unfold get at hg
  cases hr : st.records.lookup k with
  | none => rw [hr] at hg; exact Option.noConfusion hg
  | some r =>
      rw [hr] at hg
      by_cases hd : r.deleted
      · simp [hd] at hg
      · simp [hd] at hg
        exact ⟨r, rfl, Bool.eq_false_iff.mpr hd, hg⟩

theorem delete_entry_of_get {st : State} {k : Hash} {p : EntryPayload}
    (hg : get st k = some p) :
    delete_entry st k = .ok (markDeleted st k) := by
  obtain ⟨r, hr, _, _⟩ := get_some_lookup hg
  unfold delete_entry
  rw [hr]

theorem retentionStep_error (cutoff : Int) (e : String) (l : LinkEdge) :
    retentionStep cutoff (.error e) l = .error e := rfl

theorem retentionStep_del {cutoff : Int} {st : State} {l : LinkEdge} {a : LoginActivity}
    (n : Nat) (hg : get st l.target = some (.loginActivity a))
    (hlt : a.created_at < cutoff) :
    retentionStep cutoff (.ok (n, st)) l = .ok (n + 1, markDeleted st l.target) := by
  unfold retentionStep
  simp [hg, hlt, delete_entry_of_get hg]

theorem retentionStep_keep {cutoff : Int} {st : State} {l : LinkEdge} {a : LoginActivity}
    (n : Nat) (hg : get st l.target = some (.loginActivity a))
    (hlt : ¬a.created_at < cutoff) :
    retentionStep cutoff (.ok (n, st)) l = .ok (n, st) := by
  unfold retentionStep
  simp [hg, hlt]

theorem retentionStep_skip {cutoff : Int} {st : State} {l : LinkEdge}
    (n : Nat) (hg : get st l.target = none) :
    retentionStep cutoff (.ok (n, st)) l = .ok (n, st) := by
  unfold retentionStep
  simp [hg]

/-- The inductive core of C7: the retention fold deletes exactly the
linked entries whose embedded timestamp is below the cutoff, counting them,
and touches nothing else. -/
theorem delete_fold_spec (sOrig : State) (cutoff : Int) (f : LinkEdge → LoginActivity) :
    ∀ (ls : List LinkEdge) (st : State) (n : Nat),
      (∀ l ∈ ls, get st l.target = get sOrig l.target) →
      (∀ l ∈ ls, get sOrig l.target = some (.loginActivity (f l))) →
      ((ls.map (fun l => l.target)).Nodup) →
      ∃ st',
        ls.foldl (retentionStep cutoff) (.ok (n, st)) =
          .ok (n + (ls.filter (fun l => decide ((f l).created_at < cutoff))).length, st') ∧
        st'.links = st.links ∧
        (∀ l ∈ ls, (f l).created_at < cutoff → get st' l.target = none) ∧
        (∀ k, k ∉ (ls.filter (fun l => decide ((f l).created_at < cutoff))).map
            (fun l => l.target) → get st' k = get st k) := by
  intro ls
  induction ls with
  | nil =>
      intro st n _ _ _
      exact ⟨st, by simp, rfl, by simp, fun k _ => rfl⟩
  | cons l tl ih =>
      intro st n hsame hdec hnd
      have h1 : get st l.target = some (.loginActivity (f l)) := by
        rw [hsame l (List.mem_cons_self l tl)]
        exact hdec l (List.mem_cons_self l tl)
      have hndtl : ((tl.map (fun l => l.target)).Nodup) := (List.nodup_cons.mp hnd).2
      have hhead : l.target ∉ tl.map (fun l => l.target) := (List.nodup_cons.mp hnd).1
      by_cases hlt : (f l).created_at < cutoff
      · have hfc : (l :: tl).filter (fun l => decide ((f l).created_at < cutoff)) =
            l :: tl.filter (fun l => decide ((f l).created_at < cutoff)) := by
          simp [List.filter_cons, hlt]
        rw [List.foldl_cons, retentionStep_del n h1 hlt]
        have hsame1 : ∀ l' ∈ tl,
            get (markDeleted st l.target) l'.target = get sOrig l'.target := by
          intro l' hl'
          rw [get_markDeleted]
          rw [if_neg (fun he : l'.target = l.target =>
            hhead (he ▸ List.mem_map_of_mem (fun l => l.target) hl'))]
          exact hsame l' (List.mem_cons_of_mem l hl')
        obtain ⟨st', hfold, hlinks, hnone, hother⟩ :=
          ih (markDeleted st l.target) (n + 1) hsame1
            (fun l' hl' => hdec l' (List.mem_cons_of_mem l hl')) hndtl
        refine ⟨st', ?_, ?_, ?_, ?_⟩
        · rw [hfold, hfc, List.length_cons]
          have harith : n + 1 + (tl.filter (fun l =>
              decide ((f l).created_at < cutoff))).length =
              n + ((tl.filter (fun l => decide ((f l).created_at < cutoff))).length + 1) := by
            omega
          rw [harith]
        · rw [hlinks]; rfl
        · intro l' hl' hold
          rcases List.mem_cons.mp hl' with rfl | hl'
          · rw [hother l'.target (fun hmem => by
              rcases List.mem_map.mp hmem with ⟨l'', hl'', he⟩
              exact hhead (he ▸ List.mem_map_of_mem (fun l => l.target)
                (List.mem_of_mem_filter hl'')))]
            rw [get_markDeleted, if_pos rfl]
          · exact hnone l' hl' hold
        · intro k hk
          rw [hfc, List.map_cons] at hk
          have hk1 : k ∉ (tl.filter (fun l => decide ((f l).created_at < cutoff))).map
              (fun l => l.target) := fun hmem => hk (List.mem_cons.mpr (Or.inr hmem))
          have hk2 : k ≠ l.target := fun he => hk (List.mem_cons.mpr (Or.inl he))
          rw [hother k hk1, get_markDeleted, if_neg hk2]
      · have hfc : (l :: tl).filter (fun l => decide ((f l).created_at < cutoff)) =
            tl.filter (fun l => decide ((f l).created_at < cutoff)) := by
          simp [List.filter_cons, hlt]
        rw [List.foldl_cons, retentionStep_keep n h1 hlt]
        obtain ⟨st', hfold, hlinks, hnone, hother⟩ :=
          ih st n (fun l' hl' => hsame l' (List.mem_cons_of_mem l hl'))
            (fun l' hl' => hdec l' (List.mem_cons_of_mem l hl')) hndtl
        refine ⟨st', ?_, hlinks, ?_, ?_⟩
        · rw [hfold, hfc]
        · intro l' hl' hold
          rcases List.mem_cons.mp hl' with rfl | hl'
          · exact absurd hold hlt
          · exact hnone l' hl' hold
        · intro k hk
          rw [hfc] at hk
          exact hother k hk

/-- A retention fold over links that are all either unfetchable or at/past
the cutoff does nothing and counts nothing. -/
theorem delete_fold_noop (cutoff : Int) :
    ∀ (ls : List LinkEdge) (st : State) (n : Nat),
      (∀ l ∈ ls, get st l.target = none ∨
        ∃ a, get st l.target = some (.loginActivity a) ∧ ¬(a.created_at < cutoff)) →
      ls.foldl (retentionStep cutoff) (.ok (n, st)) = .ok (n, st) := by
  intro ls
  induction ls with
  | nil => intro st n _; rfl
  | cons l tl ih =>
      intro st n hall
      rw [List.foldl_cons]
      rcases hall l (List.mem_cons_self l tl) with hg | ⟨a, hg, hyoung⟩
      · rw [retentionStep_skip n hg]
        exact ih st n (fun l' hl' => hall l' (List.mem_cons_of_mem l hl'))
      · rw [retentionStep_keep n hg hyoung]
        exact ih st n (fun l' hl' => hall l' (List.mem_cons_of_mem l hl'))

/-- C7: `delete_old_login_activity` deletes exactly the linked entries
whose `created_at` is strictly below `now` minus the given days, returns
their count, leaves every other hash untouched, and an immediate second
run deletes nothing and returns 0. -/
theorem delete_old_login_activity_spec (s : State) (now d : Int) (f : LinkEdge → LoginActivity)
    (hf : ∀ l ∈ getLinks s .agentToLoginActivity, get s l.target = some (.loginActivity (f l)))
    (hnd : ((getLinks s .agentToLoginActivity).map (fun l => l.target)).Nodup) :
    ∃ s',
      delete_old_login_activity s now d =
        .ok (((getLinks s .agentToLoginActivity).filter (fun l =>
          decide ((f l).created_at < now - d * 24 * 60 * 60 * 1000000))).length, s') ∧
      s'.links = s.links ∧
      (∀ l ∈ getLinks s .agentToLoginActivity,
        (f l).created_at < now - d * 24 * 60 * 60 * 1000000 → get s' l.target = none) ∧
      (∀ k, k ∉ ((getLinks s .agentToLoginActivity).filter (fun l =>
          decide ((f l).created_at < now - d * 24 * 60 * 60 * 1000000))).map
            (fun l => l.target) → get s' k = get s k) ∧
      delete_old_login_activity s' now d = .ok (0, s') := by
  obtain ⟨s', hfold, hlinks, hnone, hother⟩ :=
    delete_fold_spec s (now - d * 24 * 60 * 60 * 1000000) f
      (getLinks s .agentToLoginActivity) s 0 (fun _ _ => rfl) hf hnd
  refine ⟨s', ?_, hlinks, hnone, hother, ?_⟩
  · show (getLinks s .agentToLoginActivity).foldl
      (retentionStep (now - d * 24 * 60 * 60 * 1000000)) (.ok (0, s)) = _
    simpa using hfold
  · show (getLinks s' .agentToLoginActivity).foldl
      (retentionStep (now - d * 24 * 60 * 60 * 1000000)) (.ok (0, s')) = _
    rw [getLinks_links_eq _ hlinks]
    apply delete_fold_noop
    intro l hl
    by_cases hlt : (f l).created_at < now - d * 24 * 60 * 60 * 1000000
    · exact Or.inl (hnone l hl hlt)
    · refine Or.inr ⟨f l, ?_, hlt⟩
      rw [hother l.target (fun hmem => ?_), hf l hl]
      rcases List.mem_map.mp hmem with ⟨l'', hl'', he⟩
      have hl''mem := List.mem_of_mem_filter hl''
      have : l'' = l :=
        List.inj_on_of_nodup_map hnd hl''mem hl he
      rw [this] at hl''
      have := List.of_mem_filter hl''
      simp only [decide_eq_true_eq] at this
      exact hlt this

/-- Witness for C7: activities at ages 5, 40 and 95 days with a 90-day
retention delete exactly one entry, and a second run deletes none. -/
theorem delete_old_login_activity_spec_witness :
    ∃ s',
      delete_old_login_activity retentionState sampleNow 90 =
        .ok (((getLinks retentionState .agentToLoginActivity).filter (fun l =>
          decide ((retentionF l).created_at <
            sampleNow - 90 * 24 * 60 * 60 * 1000000))).length, s') ∧
      s'.links = retentionState.links ∧
      (∀ l ∈ getLinks retentionState .agentToLoginActivity,
        (retentionF l).created_at < sampleNow - 90 * 24 * 60 * 60 * 1000000 →
          get s' l.target = none) ∧
      (∀ k, k ∉ ((getLinks retentionState .agentToLoginActivity).filter (fun l =>
          decide ((retentionF l).created_at <
            sampleNow - 90 * 24 * 60 * 60 * 1000000))).map
            (fun l => l.target) → get s' k = get retentionState k) ∧
      delete_old_login_activity s' sampleNow 90 = .ok (0, s') :=
  delete_old_login_activity_spec retentionState sampleNow 90 retentionF
    (by decide) (by decide)

/-! ### C3: mark_recovery_phrase_verified as delete-all-edges and recreate -/

theorem foldl_delete_link_records :
    ∀ (ls : List LinkEdge) (st : State),
      (ls.foldl (fun st l => delete_link st l.createLinkHash) st).records = st.records ∧
      (ls.foldl (fun st l => delete_link st l.createLinkHash) st).nextHash = st.nextHash := by
  intro ls
  induction ls with
  | nil => intro st; exact ⟨rfl, rfl⟩
  | cons l tl ih =>
      intro st
      rw [List.foldl_cons]
      exact ih (delete_link st l.createLinkHash)

theorem foldl_delete_link_sub :
    ∀ (ls : List LinkEdge) (st : State) (l' : LinkEdge),
      l' ∈ (ls.foldl (fun st l => delete_link st l.createLinkHash) st).links →
      l' ∈ st.links := by
  intro ls
  induction ls with
  | nil => intro st l' h; exact h
  | cons l tl ih =>
      intro st l' h
      rw [List.foldl_cons] at h
      exact List.mem_of_mem_filter (ih (delete_link st l.createLinkHash) l' h)

theorem foldl_delete_link_removes :
    ∀ (ls : List LinkEdge) (st : State) (l' : LinkEdge),
      l' ∈ (ls.foldl (fun st l => delete_link st l.createLinkHash) st).links →
      l'.createLinkHash ∉ ls.map (fun l => l.createLinkHash) := by
  intro ls
  induction ls with
  | nil => intro st l' _ h; exact List.not_mem_nil _ h
  | cons l tl ih =>
      intro st l' h
      rw [List.foldl_cons] at h
      have h1 := ih (delete_link st l.createLinkHash) l' h
      have h2 : l' ∈ (delete_link st l.createLinkHash).links :=
        foldl_delete_link_sub tl _ l' h
      have h3 : l'.createLinkHash ≠ l.createLinkHash := by
        have := List.of_mem_filter h2
        simpa using this
      rw [List.map_cons]
      intro hmem
      rcases List.mem_cons.mp hmem with he | hmem'
      · exact h3 he
      · exact h1 hmem'

/-- Deleting every edge returned by `get_links` for a type leaves no edge
of that type. -/
theorem foldl_delete_all (s : State) (t : LinkType) :
    getLinks ((getLinks s t).foldl (fun st l => delete_link st l.createLinkHash) s) t = [] := by
  set s1 := (getLinks s t).foldl (fun st l => delete_link st l.createLinkHash) s with hs1
  rw [List.eq_nil_iff_forall_not_mem]
  intro l' hl'
  have hmem : l' ∈ s1.links := List.mem_of_mem_filter hl'
  have htype : l'.linkType = t := by
    have := List.of_mem_filter hl'
    simpa using this
  have hin : l' ∈ getLinks s t := by
    refine List.mem_filter.mpr ⟨foldl_delete_link_sub _ s l' hmem, ?_⟩
    simp [htype]
  exact foldl_delete_link_removes _ s l' hmem
    (List.mem_map_of_mem (fun l => l.createLinkHash) hin)

/-- C3: `mark_recovery_phrase_verified` removes every AgentToRecoveryPhrase
edge, creates a fresh entry (never registered as an update of any prior
record) carrying `verified = true` and `created_at` rewritten to the
current time, and creates exactly one new edge to it. -/
theorem mark_recovery_phrase_verified_spec (s : State) (now : Int) (fuel : Nat)
    (h : Hash) (rp : RecoveryPhrase) (hw : WFrec s)
    (hget : get_recovery_phrase s fuel = .ok (some (h, .recoveryPhrase rp))) :
    ∃ s',
      mark_recovery_phrase_verified s now fuel = .ok (s.nextHash, s') ∧
      getLinks s' .agentToRecoveryPhrase =
        [⟨.agentToRecoveryPhrase, s.nextHash, s.nextHash + 1⟩] ∧
      get_details s' s.nextHash =
        some ⟨.recoveryPhrase { rp with verified := true, created_at := now }, [], false⟩ ∧
      (∀ pr ∈ s'.records, s.nextHash ∉ pr.2.updates) := by
  set rp' : RecoveryPhrase := { rp with verified := true, created_at := now } with hrp'
  set s1 := (getLinks s .agentToRecoveryPhrase).foldl
    (fun st l => delete_link st l.createLinkHash) s with hs1
  obtain ⟨hrec1, hnext1⟩ := foldl_delete_link_records (getLinks s .agentToRecoveryPhrase) s
  have hclear : getLinks s1 .agentToRecoveryPhrase = [] :=
    foldl_delete_all s .agentToRecoveryPhrase
  have hw1 : WFrec s1 := by
    rw [wfrec_iff] at hw ⊢
    rw [hrec1, hnext1]
    exact hw
  have hmark : mark_recovery_phrase_verified s now fuel =
      .ok (s1.nextHash,
        create_link (create_entry s1 (.recoveryPhrase rp')).2
          .agentToRecoveryPhrase s1.nextHash) := by
    unfold mark_recovery_phrase_verified
    rw [hget]
    rfl
  set s3 := create_link (create_entry s1 (.recoveryPhrase rp')).2
    .agentToRecoveryPhrase s1.nextHash with hs3
  refine ⟨s3, by rw [hmark, hnext1], ?_, ?_, ?_⟩
  · rw [hs3, getLinks_create_link_eq]
    rw [show getLinks (create_entry s1 (.recoveryPhrase rp')).2 .agentToRecoveryPhrase =
      getLinks s1 .agentToRecoveryPhrase from rfl, hclear]
    rw [show (create_entry s1 (.recoveryPhrase rp')).2.nextHash = s1.nextHash + 1 from rfl]
    rw [hnext1]
    rfl
  · rw [hs3, get_details_create_link, ← hnext1]
    exact get_details_create_entry_fresh _ hw1
  · intro pr hpr
    have hpr' : pr ∈ s1.records ++ [(s1.nextHash, ⟨.recoveryPhrase rp', [], false⟩)] := hpr
    rcases List.mem_append.mp hpr' with hpr1 | hpr1
    · rw [hrec1] at hpr1
      have := ((wfrec_iff s).mp hw pr hpr1).2
      intro hcontra
      exact absurd (this _ hcontra) (lt_irrefl _)
    · rw [List.mem_singleton.mp hpr1]
      simp

/-- Witness for C3 at one stored recovery phrase. -/
theorem mark_recovery_phrase_verified_spec_witness :
    ∃ s',
      mark_recovery_phrase_verified onePhraseState 777 1 = .ok (onePhraseState.nextHash, s') ∧
      getLinks s' .agentToRecoveryPhrase =
        [⟨.agentToRecoveryPhrase, onePhraseState.nextHash, onePhraseState.nextHash + 1⟩] ∧
      get_details s' onePhraseState.nextHash =
        some ⟨.recoveryPhrase { samplePhrase 100 with verified := true, created_at := 777 },
          [], false⟩ ∧
      (∀ pr ∈ s'.records, onePhraseState.nextHash ∉ pr.2.updates) :=
  mark_recovery_phrase_verified_spec onePhraseState 777 1 0 (samplePhrase 100)
    (by decide) rfl

/-! ### C4 and C5: import_data -/

theorem getLinks_snoc {s2 st : State} {l : LinkEdge}
    (h : s2.links = st.links ++ [l]) (t' : LinkType) :
    getLinks s2 t' = getLinks st t' ++ (if l.linkType = t' then [l] else []) := by
  unfold getLinks
  rw [h, List.filter_append]
  congr 1
  by_cases hl : l.linkType = t' <;> simp [hl]

/-- Every list stage of the import pipeline appends exactly one link of its
own type per item and preserves well-formedness. -/
theorem stage_fold {α : Type} (f : State → α → State) (t : LinkType)
    (hwf : ∀ st a, WFrec st → WFrec (f st a))
    (hl : ∀ st a, ∃ l : LinkEdge, (f st a).links = st.links ++ [l] ∧ l.linkType = t) :
    ∀ (xs : List α) (st : State),
      (WFrec st → WFrec (xs.foldl f st)) ∧
      (∀ t', t' ≠ t → getLinks (xs.foldl f st) t' = getLinks st t') ∧
      (getLinks (xs.foldl f st) t).length = (getLinks st t).length + xs.length := by
  intro xs
  induction xs with
  | nil => intro st; exact ⟨id, fun _ _ => rfl, by simp⟩
  | cons x xs ih =>
      intro st
      rw [List.foldl_cons]
      obtain ⟨l, hlinks, htype⟩ := hl st x
      rcases ih (f st x) with ⟨ihw, ihne, ihlen⟩
      refine ⟨fun hwst => ihw (hwf st x hwst), ?_, ?_⟩
      · intro t' hne
        rw [ihne t' hne, getLinks_snoc hlinks t', htype,
          if_neg (fun he => hne he.symm), List.append_nil]
      · rw [ihlen, getLinks_snoc hlinks t, htype, if_pos rfl, List.length_append]
        simp only [List.length_cons, List.length_nil]
        omega

theorem sessions_stage_spec (xs : List Session) (st : State) :
    (WFrec st → WFrec (importSessionsStage st xs)) ∧
    (∀ t', t' ≠ .agentToSessions →
      getLinks (importSessionsStage st xs) t' = getLinks st t') ∧
    (getLinks (importSessionsStage st xs) .agentToSessions).length =
      (getLinks st .agentToSessions).length + xs.length :=
  stage_fold (fun st session => (store_session st session).2) .agentToSessions
    (fun _ _ hw => WFrec_create_link _ _ (WFrec_create_entry _ hw))
    (fun st _ => ⟨⟨.agentToSessions, st.nextHash, st.nextHash + 1⟩, rfl, rfl⟩) xs st

theorem email_stage_spec (xs : List EmailPermission) (st : State) :
    (WFrec st → WFrec (importEmailStage st xs)) ∧
    (∀ t', t' ≠ .agentToEmailPermissions →
      getLinks (importEmailStage st xs) t' = getLinks st t') ∧
    (getLinks (importEmailStage st xs) .agentToEmailPermissions).length =
      (getLinks st .agentToEmailPermissions).length + xs.length :=
  stage_fold _ .agentToEmailPermissions
    (fun _ _ hw => WFrec_create_link _ _ (WFrec_create_entry _ hw))
    (fun st _ => ⟨⟨.agentToEmailPermissions, st.nextHash, st.nextHash + 1⟩, rfl, rfl⟩) xs st

theorem login_stage_spec (xs : List LoginActivity) (st : State) :
    (WFrec st → WFrec (importLoginStage st xs)) ∧
    (∀ t', t' ≠ .agentToLoginActivity →
      getLinks (importLoginStage st xs) t' = getLinks st t') ∧
    (getLinks (importLoginStage st xs) .agentToLoginActivity).length =
      (getLinks st .agentToLoginActivity).length + xs.length :=
  stage_fold (fun st a => (store_login_activity st a).2) .agentToLoginActivity
    (fun _ _ hw => WFrec_create_link _ _ (WFrec_create_entry _ hw))
    (fun st _ => ⟨⟨.agentToLoginActivity, st.nextHash, st.nextHash + 1⟩, rfl, rfl⟩) xs st

theorem dashboard_stage_spec (xs : List DashboardActivity) (st : State) :
    (WFrec st → WFrec (importDashboardStage st xs)) ∧
    (∀ t', t' ≠ .agentToDashboardActivity →
      getLinks (importDashboardStage st xs) t' = getLinks st t') ∧
    (getLinks (importDashboardStage st xs) .agentToDashboardActivity).length =
      (getLinks st .agentToDashboardActivity).length + xs.length :=
  stage_fold (fun st a => (store_dashboard_activity st a).2) .agentToDashboardActivity
    (fun _ _ hw => WFrec_create_link _ _ (WFrec_create_entry _ hw))
    (fun st _ => ⟨⟨.agentToDashboardActivity, st.nextHash, st.nextHash + 1⟩, rfl, rfl⟩) xs st

theorem oauth_stage_spec (xs : List OAuthActivity) (st : State) :
    (WFrec st → WFrec (importOAuthStage st xs)) ∧
    (∀ t', t' ≠ .agentToOAuthActivity →
      getLinks (importOAuthStage st xs) t' = getLinks st t') ∧
    (getLinks (importOAuthStage st xs) .agentToOAuthActivity).length =
      (getLinks st .agentToOAuthActivity).length + xs.length :=
  stage_fold (fun st a => (store_oauth_activity st a).2) .agentToOAuthActivity
    (fun _ _ hw => WFrec_create_link _ _ (WFrec_create_entry _ hw))
    (fun st _ => ⟨⟨.agentToOAuthActivity, st.nextHash, st.nextHash + 1⟩, rfl, rfl⟩) xs st

theorem profile_stage_spec (o : Option UserProfile) (st : State) :
    (WFrec st → WFrec (importProfileStage st o)) ∧
    (∀ t', t' ≠ .agentToProfile →
      getLinks (importProfileStage st o) t' = getLinks st t') := by
  cases o with
  | none => exact ⟨id, fun _ _ => rfl⟩
  | some p =>
      refine ⟨fun hw => WFrec_create_link _ _ (WFrec_create_entry _ hw), ?_⟩
      intro t' hne
      show getLinks (create_link (create_entry st (.userProfile p)).2
        .agentToProfile st.nextHash) t' = getLinks st t'
      rw [getLinks_create_link_ne _ _ _ _ (fun he => hne he.symm)]
      rfl

theorem phrase_stage_spec (o : Option RecoveryPhrase) (st : State) :
    (WFrec st → WFrec (importPhraseStage st o)) ∧
    (∀ t', t' ≠ .agentToRecoveryPhrase →
      getLinks (importPhraseStage st o) t' = getLinks st t') := by
  cases o with
  | none => exact ⟨id, fun _ _ => rfl⟩
  | some rp =>
      refine ⟨fun hw => WFrec_create_link _ _ (WFrec_create_entry _ hw), ?_⟩
      intro t' hne
      show getLinks (create_link (create_entry st (.recoveryPhrase rp)).2
        .agentToRecoveryPhrase st.nextHash) t' = getLinks st t'
      rw [getLinks_create_link_ne _ _ _ _ (fun he => hne he.symm)]
      rfl

theorem importStages_wfrec (s : State) (data : ExportedData) (hw : WFrec s) :
    WFrec (importStages s data) := by
  unfold importStages
  exact (oauth_stage_spec _ _).1 ((dashboard_stage_spec _ _).1 ((login_stage_spec _ _).1
    ((email_stage_spec _ _).1 ((sessions_stage_spec _ _).1 ((phrase_stage_spec _ _).1
      ((profile_stage_spec _ _).1 hw))))))

theorem importStages_privacy_links (s : State) (data : ExportedData) :
    getLinks (importStages s data) .agentToPrivacySettings =
      getLinks s .agentToPrivacySettings := by
  unfold importStages
  rw [(oauth_stage_spec _ _).2.1 _ (by intro h; exact LinkType.noConfusion h),
    (dashboard_stage_spec _ _).2.1 _ (by intro h; exact LinkType.noConfusion h),
    (login_stage_spec _ _).2.1 _ (by intro h; exact LinkType.noConfusion h),
    (email_stage_spec _ _).2.1 _ (by intro h; exact LinkType.noConfusion h),
    (sessions_stage_spec _ _).2.1 _ (by intro h; exact LinkType.noConfusion h),
    (phrase_stage_spec _ _).2 _ (by intro h; exact LinkType.noConfusion h),
    (profile_stage_spec _ _).2 _ (by intro h; exact LinkType.noConfusion h)]

theorem importStages_session_count (s : State) (data : ExportedData) :
    (getLinks (importStages s data) .agentToSessions).length =
      (getLinks s .agentToSessions).length + data.sessions.length := by
  unfold importStages
  rw [(oauth_stage_spec _ _).2.1 _ (by intro h; exact LinkType.noConfusion h),
    (dashboard_stage_spec _ _).2.1 _ (by intro h; exact LinkType.noConfusion h),
    (login_stage_spec _ _).2.1 _ (by intro h; exact LinkType.noConfusion h),
    (email_stage_spec _ _).2.1 _ (by intro h; exact LinkType.noConfusion h),
    (sessions_stage_spec _ _).2.2,
    (phrase_stage_spec _ _).2 _ (by intro h; exact LinkType.noConfusion h),
    (profile_stage_spec _ _).2 _ (by intro h; exact LinkType.noConfusion h)]

theorem importStages_login_count (s : State) (data : ExportedData) :
    (getLinks (importStages s data) .agentToLoginActivity).length =
      (getLinks s .agentToLoginActivity).length + data.login_activities.length := by
  unfold importStages
  rw [(oauth_stage_spec _ _).2.1 _ (by intro h; exact LinkType.noConfusion h),
    (dashboard_stage_spec _ _).2.1 _ (by intro h; exact LinkType.noConfusion h),
    (login_stage_spec _ _).2.2,
    (email_stage_spec _ _).2.1 _ (by intro h; exact LinkType.noConfusion h),
    (sessions_stage_spec _ _).2.1 _ (by intro h; exact LinkType.noConfusion h),
    (phrase_stage_spec _ _).2 _ (by intro h; exact LinkType.noConfusion h),
    (profile_stage_spec _ _).2 _ (by intro h; exact LinkType.noConfusion h)]

/-- C4 (amended): when the privacy-settings step fails (the only
app-level failure in `import_data`), the call returns that single error —
no aggregate report — while every kind imported before the failure stays
committed in the state and no privacy record is linked. -/
theorem import_data_aborts_without_report (s : State) (data : ExportedData) (now : Int)
    (hpriv : getLinks s .agentToPrivacySettings ≠ [])
    (hnone : data.privacy_settings = none) :
    import_data s data now = (.error "Privacy settings already exist", importStages s data) ∧
    (getLinks (importStages s data) .agentToSessions).length =
      (getLinks s .agentToSessions).length + data.sessions.length ∧
    (getLinks (importStages s data) .agentToLoginActivity).length =
      (getLinks s .agentToLoginActivity).length + data.login_activities.length ∧
    getLinks (importStages s data) .agentToPrivacySettings =
      getLinks s .agentToPrivacySettings := by
  have hpl := importStages_privacy_links s data
  have hcds : create_default_privacy_settings (importStages s data) now =
      .error "Privacy settings already exist" := by
    unfold create_default_privacy_settings
    rw [hpl]
    cases hc : getLinks s .agentToPrivacySettings with
    | nil => exact absurd hc hpriv
    | cons a tl => rfl
  refine ⟨?_, importStages_session_count s data, importStages_login_count s data, hpl⟩
  simp only [import_data, hnone, hcds]

/-- Counterexample to C4 as stated: importing a bundle without privacy
settings into a state that already has them makes `import_data` return the
single underlying error — the call fails instead of continuing and
returning an aggregate success report. -/
theorem import_data_no_aggregate_report_counterexample :
    (import_data havePrivacyState sampleBundle 42).1 =
      .error "Privacy settings already exist" := rfl

/-- Witness for the amended C4 at the concrete pre-populated state. -/
theorem import_data_aborts_without_report_witness :
    import_data havePrivacyState sampleBundle 42 =
      (.error "Privacy settings already exist", importStages havePrivacyState sampleBundle) ∧
    (getLinks (importStages havePrivacyState sampleBundle) .agentToSessions).length =
      (getLinks havePrivacyState .agentToSessions).length + sampleBundle.sessions.length ∧
    (getLinks (importStages havePrivacyState sampleBundle) .agentToLoginActivity).length =
      (getLinks havePrivacyState .agentToLoginActivity).length +
        sampleBundle.login_activities.length ∧
    getLinks (importStages havePrivacyState sampleBundle) .agentToPrivacySettings =
      getLinks havePrivacyState .agentToPrivacySettings :=
  import_data_aborts_without_report havePrivacyState sampleBundle 42 (by decide) rfl

/-- C5: importing a bundle whose privacy_settings field is None synthesizes
the default settings record — track_ip_address true, track_user_agent true,
90-day retention, no auto-anonymize — and links it to the agent. -/
theorem import_data_synthesizes_default_privacy (s : State) (data : ExportedData) (now : Int)
    (hw : WFrec s) (hno : getLinks s .agentToPrivacySettings = [])
    (hnone : data.privacy_settings = none) :
    ∃ s',
      import_data s data now = (.ok (), s') ∧
      getLinks s' .agentToPrivacySettings =
        [⟨.agentToPrivacySettings, (importStages s data).nextHash,
          (importStages s data).nextHash + 1⟩] ∧
      get_details s' (importStages s data).nextHash =
        some ⟨.privacySettings ⟨true, true, 90, none, now, now⟩, [], false⟩ := by
  set s7 := importStages s data with hs7
  have hw7 : WFrec s7 := importStages_wfrec s data hw
  have hpl : getLinks s7 .agentToPrivacySettings = [] := by
    rw [hs7, importStages_privacy_links s data, hno]
  have hcds : create_default_privacy_settings s7 now =
      .ok (s7.nextHash,
        create_link (create_entry s7
          (.privacySettings ⟨true, true, 90, none, now, now⟩)).2
          .agentToPrivacySettings s7.nextHash) := by
    unfold create_default_privacy_settings
    rw [hpl]
    rfl
  refine ⟨create_link (create_entry s7
      (.privacySettings ⟨true, true, 90, none, now, now⟩)).2
      .agentToPrivacySettings s7.nextHash, ?_, ?_, ?_⟩
  · simp only [import_data, hnone, ← hs7, hcds]
  · rw [getLinks_create_link_eq]
    rw [show getLinks (create_entry s7
      (.privacySettings ⟨true, true, 90, none, now, now⟩)).2 .agentToPrivacySettings =
      getLinks s7 .agentToPrivacySettings from rfl, hpl]
    rfl
  · rw [get_details_create_link]
    exact get_details_create_entry_fresh _ hw7

/-- Witness for C5: importing the v1.5-style bundle into the empty state
creates and links the documented default privacy settings. -/
theorem import_data_synthesizes_default_privacy_witness :
    ∃ s',
      import_data emptyState sampleBundle 42 = (.ok (), s') ∧
      getLinks s' .agentToPrivacySettings =
        [⟨.agentToPrivacySettings, (importStages emptyState sampleBundle).nextHash,
          (importStages emptyState sampleBundle).nextHash + 1⟩] ∧
      get_details s' (importStages emptyState sampleBundle).nextHash =
        some ⟨.privacySettings ⟨true, true, 90, none, 42, 42⟩, [], false⟩ :=
  import_data_synthesizes_default_privacy emptyState sampleBundle 42
    (by decide) rfl rfl

end Flowsta
